import Mathlib

/-!
Verification development for the stid / flexid short time-ordered identifier
generator. The Go source is shallowly embedded below: Go strings are modelled
as lists of characters (exact for the ASCII alphabets the library ships and
the claims use), Go int64 values as Int, Go uint64 values as Nat reduced
modulo 2 ^ 64 where a conversion happens, and the two injected capabilities
(the time provider and the random byte source) as explicit arguments of the
generation function, so that every operation is a pure, executable function.
-/

namespace Stid

/-- Go time.Location marker of a time.Time value. A nil location is rendered
by Go as UTC, but the stored representation still distinguishes the three
cases, which is what the construction-time-normalization claim is about.
Comparison and subtraction of Go times ignore the location entirely. -/
inductive GoLoc where
  | unset
  | utc
  | localtz
deriving DecidableEq

/-- Go time.Time, reduced to its observable content for this library: the
absolute instant in nanoseconds since the Unix epoch, plus the location
marker. time.Time.Before and time.Time.Sub depend only on the instant. -/
structure GoTime where
  ns : Int
  loc : GoLoc
deriving DecidableEq

/-- Go time.Time.UTC: same instant, location set to UTC. -/
def GoTime.toUTC (t : GoTime) : GoTime := { ns := t.ns, loc := GoLoc.utc }

/-- Go time.Time.Before: strict comparison of instants. -/
def GoTime.before (t u : GoTime) : Bool := t.ns < u.ns

/-- Config from the source: epoch, tickSize (a time.Duration, i.e. int64
nanoseconds), alphabet, numRandomChars (a Go int). The timeProvider and
randomSource fields are modelled as explicit inputs of Generate. -/
structure Config where
  epoch : GoTime
  tickSize : Int
  alphabet : List Char
  numRandomChars : Int
deriving DecidableEq

/-- Generator from the source: the configuration plus the cached base. -/
structure Generator where
  config : Config
  base : Nat
deriving DecidableEq

/-- The three construction-time errors of NewGenerator. -/
inductive ConfigError where
  | AlphabetTooShort
  | NegativeRandomLength
  | DuplicateAlphabetCharacter (c : Char)
deriving DecidableEq

/-- The generation-time errors of Generate and its helpers. -/
inductive GenError where
  | EpochNotReached
  | BufferSizeEstimationFailed
  | RandomSourceError
deriving DecidableEq

/-- Loop of validateAlphabet from the source: walk the alphabet keeping the
set of characters seen so far, returning the first repeated character. -/
def validateAlphabetAux (seen : List Char) : List Char → Option Char
  | [] => none
  | ch :: rest => if ch ∈ seen then some ch else validateAlphabetAux (ch :: seen) rest

/-- validateAlphabet from the source: some ch when ch is the first character
that repeats an earlier one, none when the alphabet has no duplicates. -/
def validateAlphabet (alphabet : List Char) : Option Char :=
  validateAlphabetAux [] alphabet

/-- NewGenerator from the source: reject an alphabet shorter than 2
characters, then a negative numRandomChars, then a duplicated character;
otherwise store the configuration unchanged and cache the alphabet length. -/
def NewGenerator (config : Config) : Except ConfigError Generator :=
  if config.alphabet.length < 2 then .error .AlphabetTooShort
  else if config.numRandomChars < 0 then .error .NegativeRandomLength
  else
    match validateAlphabet config.alphabet with
    | some ch => .error (.DuplicateAlphabetCharacter ch)
    | none => .ok { config := config, base := config.alphabet.length }

/-- Buffer size computed by encodeBaseN. The Go source computes
int(64/math.Log2(float64(base))) + 2 with float64 arithmetic; the exact real
value of that expression is the largest k with base ^ k at most 2 ^ 64, i.e.
Nat.log base (2 ^ 64), plus 2. We embed the exact value. (A one-off float
rounding of the estimate would change the slack of the buffer by one but, as
proved below, even a buffer of Nat.log base (2 ^ 64) + 1 cells suffices for
every 64-bit input, so the claims settled here are insensitive to it.) -/
def bufSize (base : Nat) : Nat := Nat.log base (2 ^ 64) + 2

/-- Core loop of encodeBaseN from the source: while the number is positive,
fail if the write index dropped below zero, otherwise write the character of
the current remainder at index i of the buffer and continue with the
quotient. The buffer cells at indices i+1 and beyond, i.e. the characters
already produced, are carried as the accumulator list, so the returned list
is exactly the Go string buf[i+1:]. A zero base cannot be reached from a
validated generator (base is the alphabet length, at least 2); Go would
panic with a division by zero there, which we map to an error value. -/
def encodeLoop (alphabet : List Char) (base : Nat) (number : Nat) (i : Int)
    (acc : List Char) : Except GenError (List Char) :=
  if number = 0 then .ok acc
  else if i < 0 then .error .BufferSizeEstimationFailed
  else if base = 0 then .error .BufferSizeEstimationFailed
  else encodeLoop alphabet base (number / base) (i - 1)
    (alphabet.getD (number % base) ' ' :: acc)
termination_by number + (i + 1).toNat
decreasing_by
  have hdved : number / base ≤ number := Nat.div_le_self number base
  omega

/-- encodeBaseN from the source: zero encodes to the single character at
alphabet index 0; otherwise run the division loop with the write index
starting at the last cell of the buffer. -/
def encodeBaseN (alphabet : List Char) (base : Nat) (number : Nat) :
    Except GenError (List Char) :=
  if number = 0 then .ok [alphabet.getD 0 ' ']
  else encodeLoop alphabet base number ((bufSize base : Int) - 1) []

/-- Method form of encodeBaseN, reading alphabet and base off the generator
exactly as the Go method does. -/
def Generator.encodeBaseN (g : Generator) (number : Nat) : Except GenError (List Char) :=
  Stid.encodeBaseN g.config.alphabet g.base number

/-- maxValidByte from the source: byte((256/base)*base - 1), i.e. the int
value (256/base)*base - 1 reduced modulo 256 by the byte conversion (for a
base above 256 the int value is -1 and the byte wraps to 255). -/
def Generator.maxValidByte (g : Generator) : Nat :=
  ((((256 / g.base) * g.base : Int) - 1) % 256).toNat

/-- Inner loop of generateRandomChars from the source: scan one batch of
random bytes; while fewer than length characters have been accepted, accept
a byte b at most maxValid as the character at alphabet index b % base and
discard any larger byte; stop as soon as length characters are collected. -/
def grcScan (alphabet : List Char) (base maxValid numWanted : Nat) :
    List Nat → List Char → List Char
  | [], acc => acc
  | b :: rest, acc =>
    if acc.length < numWanted then
      if b ≤ maxValid then
        grcScan alphabet base maxValid numWanted rest
          (acc ++ [alphabet.getD (b % base) ' '])
      else grcScan alphabet base maxValid numWanted rest acc
    else acc

/-- Outer loop of generateRandomChars from the source: while fewer than
numWanted characters are collected, read a full batch of numWanted bytes from
the random source (failing with the read error if the source cannot supply
them, exactly io.ReadFull) and scan it. Returns the collected characters
together with the unread remainder of the source. -/
def grcOuter (alphabet : List Char) (base maxValid numWanted : Nat)
    (src : List Nat) (acc : List Char) : Except GenError (List Char × List Nat) :=
  if numWanted ≤ acc.length then .ok (acc, src)
  else if numWanted ≤ src.length then
    grcOuter alphabet base maxValid numWanted (src.drop numWanted)
      (grcScan alphabet base maxValid numWanted (src.take numWanted) acc)
  else .error .RandomSourceError
termination_by src.length
decreasing_by
  simp only [List.length_drop]
  omega

/-- generateRandomChars from the source: a zero length returns the empty
string at once, consuming nothing; otherwise run the batched rejection
sampling loop. (The Go function is only ever called with a positive length;
for a negative length Go would panic allocating the buffers.) -/
def Generator.generateRandomChars (g : Generator) (numChars : Int)
    (src : List Nat) : Except GenError (List Char × List Nat) :=
  if numChars = 0 then .ok ([], src)
  else grcOuter g.config.alphabet g.base g.maxValidByte numChars.toNat src []

/-- Largest Go time.Duration value; time.Time.Sub saturates at this bound. -/
def maxDuration : Int := 2 ^ 63 - 1

/-- Tick count computed by Generate inside the positive-tickSize branch: the
elapsed duration now - epoch (nonnegative there thanks to the epoch check,
saturating at the maximal Duration as time.Time.Sub does), divided by
tickSize, converted to uint64. -/
def Generator.ticksOf (g : Generator) (now : GoTime) : Nat :=
  ((min (now.toUTC.ns - g.config.epoch.ns) maxDuration).toNat
    / g.config.tickSize.toNat) % 2 ^ 64

/-- Generate from the source: normalize now to UTC, fail when now is strictly
before the epoch, encode the tick count when tickSize is positive, sample the
random characters when numRandomChars is positive, concatenate. now0 is the
value returned by the configured time provider and src the byte stream of the
configured random source. -/
def Generator.Generate (g : Generator) (now0 : GoTime) (src : List Nat) :
    Except GenError (List Char) :=
  let now := now0.toUTC
  if now.before g.config.epoch then .error .EpochNotReached
  else
    match (if 0 < g.config.tickSize then g.encodeBaseN (g.ticksOf now0)
           else .ok []) with
    | .error e => .error e
    | .ok encodedTimestamp =>
      match (if 0 < g.config.numRandomChars
             then g.generateRandomChars g.config.numRandomChars src
             else .ok ([], src)) with
      | .error e => .error e
      | .ok (randomPart, _) => .ok (encodedTimestamp ++ randomPart)

/-- The base62 alphabet constant from the source. -/
def Base62Alphabet : List Char :=
  "0123456789ABCDEFGHIJKLMNOPQRSTUVWXYZabcdefghijklmnopqrstuvwxyz".toList

/-- The lowercase hexadecimal alphabet constant from the source. -/
def Base16LowerAlphabet : List Char := "0123456789abcdef".toList

/-- The two-character binary alphabet used by the encoder test vectors. -/
def BinaryAlphabet : List Char := "01".toList

/-- Digit list of a number in a given base, most significant digit first
(empty for zero). This is the reference digit sequence the encoder loop is
proved to produce. -/
def natDigits (base : Nat) (n : Nat) : List Nat :=
  if n = 0 ∨ base ≤ 1 then []
  else natDigits base (n / base) ++ [n % base]
termination_by n
decreasing_by
  exact Nat.div_lt_self (by omega) (by omega)

/-- Modelled from the specification wording of the encoder claim, not from
the source: the standard most-significant-digit-first positional base-N
representation over the alphabet, where base is the alphabet length, digit d
is rendered as the character at alphabet index d, and zero is the single
character at alphabet index 0. Stated via Mathlib's Nat.digits. -/
def specBaseNRepr (alphabet : List Char) (number : Nat) : List Char :=
  if number = 0 then [alphabet.getD 0 ' ']
  else (Nat.digits alphabet.length number).reverse.map
    (fun d => alphabet.getD d ' ')

/-- Strict lexicographic comparison of Go strings (byte order; for the ASCII
strings at play the character order is the byte order). -/
def goStrLtB : List Char → List Char → Bool
  | [], [] => false
  | [], _ :: _ => true
  | _ :: _, [] => false
  | a :: as, b :: bs => if a < b then true else if b < a then false else goStrLtB as bs

/-- Lexicographic at-most comparison of Go strings. -/
def goStrLeB : List Char → List Char → Bool
  | [], _ => true
  | _ :: _, [] => false
  | a :: as, b :: bs => if a < b then true else if b < a then false else goStrLeB as bs

/-- Generator equal to the given one except for the location marker of the
stored epoch; used to state that generation ignores that marker. -/
def withEpochLoc (g : Generator) (l : GoLoc) : Generator :=
  { config :=
      { epoch := { ns := g.config.epoch.ns, loc := l }
        tickSize := g.config.tickSize
        alphabet := g.config.alphabet
        numRandomChars := g.config.numRandomChars }
    base := g.base }

/-- Configuration whose epoch carries no location information. -/
def c6cfg : Config :=
  { epoch := { ns := 0, loc := GoLoc.unset }
    tickSize := 1
    alphabet := BinaryAlphabet
    numRandomChars := 0 }

/-- The generator NewGenerator builds from c6cfg. -/
def c6gen : Generator := { config := c6cfg, base := 2 }

/-- Configuration builder used by the concrete test instances below; the
epoch is taken at the given instant in UTC. -/
def mkCfg (alphabet : List Char) (tickSize numRandomChars epochNs : Int) : Config :=
  { epoch := { ns := epochNs, loc := GoLoc.utc }
    tickSize := tickSize
    alphabet := alphabet
    numRandomChars := numRandomChars }

/-- Generator over mkCfg with the base cached exactly as NewGenerator does. -/
def mkGen (alphabet : List Char) (tickSize numRandomChars epochNs : Int) : Generator :=
  { config := mkCfg alphabet tickSize numRandomChars epochNs
    base := alphabet.length }

deriving instance DecidableEq for Except

theorem log62v : Nat.log 62 (2 ^ 64) = 10 :=
  Nat.log_eq_of_pow_le_of_lt_pow (by norm_num) (by norm_num)

theorem log16v : Nat.log 16 (2 ^ 64) = 16 :=
  Nat.log_eq_of_pow_le_of_lt_pow (by norm_num) (by norm_num)

theorem log2v : Nat.log 2 (2 ^ 64) = 64 :=
  Nat.log_eq_of_pow_le_of_lt_pow (by norm_num) (by norm_num)

theorem bufSize62 : bufSize 62 = 12 := by rw [bufSize, log62v]

theorem bufSize16 : bufSize 16 = 18 := by rw [bufSize, log16v]

theorem bufSize2 : bufSize 2 = 66 := by rw [bufSize, log2v]

theorem natDigits_zero (base : Nat) : natDigits base 0 = [] := by
  rw [natDigits]
  simp

theorem natDigits_eq (base n : Nat) (hb : 2 ≤ base) (hn : n ≠ 0) :
    natDigits base n = natDigits base (n / base) ++ [n % base] := by
  rw [natDigits, if_neg (by omega)]

theorem natDigits_length_pos (base n : Nat) (hb : 2 ≤ base) (hn : n ≠ 0) :
    0 < (natDigits base n).length := by
  rw [natDigits_eq base n hb hn]
  simp

/-- Every digit produced by natDigits is below the base. -/
theorem natDigits_lt (base : Nat) (hb : 2 ≤ base) :
    ∀ n, ∀ d ∈ natDigits base n, d < base := by
  intro n
  induction n using Nat.strong_induction_on with
  | _ n IH =>
    intro d hd
    by_cases h0 : n = 0
    · rw [h0, natDigits_zero] at hd
      simp at hd
    · rw [natDigits_eq base n hb h0] at hd
      rcases List.mem_append.mp hd with h | h
      · exact IH (n / base) (Nat.div_lt_self (by omega) (by omega)) d h
      · simp at h
        subst h
        exact Nat.mod_lt n (by omega)

/-- The division loop of the encoder computes exactly the most-significant
first digit list, rendered through the alphabet, whenever the write budget
i + 1 covers the number of digits. -/
theorem encodeLoop_ok (alphabet : List Char) (base : Nat) (hb : 2 ≤ base) :
    ∀ (number : Nat) (i : Int) (acc : List Char),
      ((natDigits base number).length : Int) ≤ i + 1 →
      encodeLoop alphabet base number i acc =
        .ok ((natDigits base number).map (fun d => alphabet.getD d ' ') ++ acc) := by
  intro number
  induction number using Nat.strong_induction_on with
  | _ n IH =>
    intro i acc hlen
    by_cases h0 : n = 0
    · subst h0
      rw [encodeLoop, if_pos rfl, natDigits_zero]
      simp
    · have hpos : 0 < (natDigits base n).length := natDigits_length_pos base n hb h0
      have hi : ¬ i < 0 := by omega
      rw [encodeLoop, if_neg h0, if_neg hi, if_neg (by omega : ¬ base = 0)]
      have hlt : n / base < n := Nat.div_lt_self (by omega) (by omega)
      have hlen' : ((natDigits base (n / base)).length : Int) ≤ (i - 1) + 1 := by
        have : (natDigits base n).length = (natDigits base (n / base)).length + 1 := by
          rw [natDigits_eq base n hb h0]
          simp
        omega
      rw [IH (n / base) hlt (i - 1) _ hlen']
      rw [natDigits_eq base n hb h0]
      simp

/-- For a number below base ^ k the digit list has at most k digits. -/
theorem natDigits_length_le (base : Nat) (hb : 2 ≤ base) :
    ∀ (k n : Nat), n < base ^ k → (natDigits base n).length ≤ k := by
  intro k
  induction k with
  | zero =>
    intro n hn
    simp at hn
    rw [hn, natDigits_zero]
    simp
  | succ k IH =>
    intro n hn
    by_cases h0 : n = 0
    · rw [h0, natDigits_zero]
      simp
    · rw [natDigits_eq base n hb h0]
      simp only [List.length_append, List.length_cons, List.length_nil]
      have hdiv : n / base < base ^ k := by
        rw [Nat.div_lt_iff_lt_mul (by omega : 0 < base)]
        calc n < base ^ (k + 1) := hn
        _ = base ^ k * base := by ring
      have := IH (n / base) hdiv
      omega

/-- Digit count of any 64-bit value fits in the computed buffer with one cell
to spare. -/
theorem natDigits_length_le_bufSize (base n : Nat) (hb : 2 ≤ base)
    (hn : n < 2 ^ 64) : (natDigits base n).length ≤ bufSize base - 1 := by
  have hpow : 2 ^ 64 < base ^ (Nat.log base (2 ^ 64) + 1) :=
    Nat.lt_pow_succ_log_self (by omega) (2 ^ 64)
  have hlen := natDigits_length_le base hb (Nat.log base (2 ^ 64) + 1) n (by omega)
  rw [bufSize]
  omega

/-- Full characterization of the encoder on any 64-bit input. -/
theorem encodeBaseN_ok (alphabet : List Char) (base n : Nat) (hb : 2 ≤ base)
    (hn : n < 2 ^ 64) :
    encodeBaseN alphabet base n =
      .ok (if n = 0 then [alphabet.getD 0 ' ']
           else (natDigits base n).map (fun d => alphabet.getD d ' ')) := by
  by_cases h0 : n = 0
  · rw [encodeBaseN, if_pos h0, if_pos h0]
  · rw [encodeBaseN, if_neg h0, if_neg h0]
    have hfit := natDigits_length_le_bufSize base n hb hn
    have hb2 : 2 ≤ bufSize base := by rw [bufSize]; omega
    rw [encodeLoop_ok alphabet base hb n ((bufSize base : Int) - 1) [] (by omega)]
    simp

/-- The digit list agrees with the reverse of Mathlib's little-endian digit
expansion, connecting the encoder to the standard positional notation. -/
theorem natDigits_eq_digits_reverse (base : Nat) (hb : 2 ≤ base) :
    ∀ n, natDigits base n = (Nat.digits base n).reverse := by
  intro n
  induction n using Nat.strong_induction_on with
  | _ n IH =>
    by_cases h0 : n = 0
    · rw [h0, natDigits_zero]
      simp
    · rw [natDigits_eq base n hb h0,
        Nat.digits_def' (by omega : 1 < base) (by omega : 0 < n)]
      rw [IH (n / base) (Nat.div_lt_self (by omega) (by omega))]
      simp

/-- The batch scan appends the images of the accepted bytes of the batch,
up to the number of characters still missing. -/
theorem grcScan_eq (alphabet : List Char) (base maxValid numWanted : Nat) :
    ∀ (batch : List Nat) (acc : List Char), acc.length ≤ numWanted →
      grcScan alphabet base maxValid numWanted batch acc =
        acc ++ ((batch.filter (fun b => decide (b ≤ maxValid))).take
          (numWanted - acc.length)).map (fun b => alphabet.getD (b % base) ' ') := by
  intro batch
  induction batch with
  | nil => intro acc hacc; simp [grcScan]
  | cons b rest IH =>
    intro acc hacc
    rw [grcScan]
    by_cases hfull : acc.length < numWanted
    · rw [if_pos hfull]
      by_cases hb : b ≤ maxValid
      · rw [if_pos hb, IH _ (by simp; omega)]
        have htake : numWanted - acc.length = (numWanted - (acc.length + 1)) + 1 := by
          omega
        simp [hb, htake]
      · rw [if_neg hb, IH _ hacc]
        simp [hb]
    · rw [if_neg hfull]
      have : numWanted - acc.length = 0 := by omega
      simp [this]

/-- The batched sampling loop, on success, returns exactly the images of the
first missing-count accepted bytes of the whole stream. -/
theorem grcOuter_ok (alphabet : List Char) (base maxValid numWanted : Nat) :
    ∀ (fuel : Nat) (src : List Nat), src.length ≤ fuel →
      ∀ (acc : List Char), acc.length ≤ numWanted →
      ∀ res rest, grcOuter alphabet base maxValid numWanted src acc = .ok (res, rest) →
        res = acc ++ ((src.filter (fun b => decide (b ≤ maxValid))).take
          (numWanted - acc.length)).map (fun b => alphabet.getD (b % base) ' ')
        ∧ res.length = numWanted := by
  intro fuel
  induction fuel with
  | zero =>
    intro src hsrc acc hacc res rest hres
    rw [grcOuter] at hres
    by_cases hdone : numWanted ≤ acc.length
    · rw [if_pos hdone] at hres
      have h1 : res = acc ∧ rest = src := by
        cases hres
        exact ⟨rfl, rfl⟩
      have h2 : numWanted - acc.length = 0 := by omega
      refine ⟨by simp [h1.1, h2], by rw [h1.1]; omega⟩
    · rw [if_neg hdone] at hres
      have hlen : src.length = 0 := by omega
      rw [if_neg (by omega : ¬ numWanted ≤ src.length)] at hres
      cases hres
  | succ fuel IH =>
    intro src hsrc acc hacc res rest hres
    rw [grcOuter] at hres
    by_cases hdone : numWanted ≤ acc.length
    · rw [if_pos hdone] at hres
      have h1 : res = acc ∧ rest = src := by
        cases hres
        exact ⟨rfl, rfl⟩
      have h2 : numWanted - acc.length = 0 := by omega
      refine ⟨by simp [h1.1, h2], by rw [h1.1]; omega⟩
    · rw [if_neg hdone] at hres
      by_cases hread : numWanted ≤ src.length
      · rw [if_pos hread] at hres
        set acc' := grcScan alphabet base maxValid numWanted (src.take numWanted) acc
          with hacc'
        have hscan := grcScan_eq alphabet base maxValid numWanted
          (src.take numWanted) acc (by omega)
        have hacclen' : acc'.length ≤ numWanted := by
          rw [hacc', hscan]
          simp only [List.length_append, List.length_map, List.length_take]
          omega
        have hdrop : (src.drop numWanted).length ≤ fuel := by
          simp only [List.length_drop]
          omega
        obtain ⟨hres1, hres2⟩ := IH (src.drop numWanted) hdrop acc' hacclen' res rest hres
        have hsplit : src.filter (fun b => decide (b ≤ maxValid)) =
            (src.take numWanted).filter (fun b => decide (b ≤ maxValid)) ++
            (src.drop numWanted).filter (fun b => decide (b ≤ maxValid)) := by
          rw [← List.filter_append, List.take_append_drop]
        set fb := (src.take numWanted).filter (fun b => decide (b ≤ maxValid)) with hfb
        set fr := (src.drop numWanted).filter (fun b => decide (b ≤ maxValid)) with hfr
        have hlen2 : acc'.length = acc.length + min (numWanted - acc.length) fb.length := by
          rw [hacc', hscan]
          simp [hfb]
        have harith : numWanted - acc'.length = (numWanted - acc.length) - fb.length := by
          omega
        rw [harith] at hres1
        refine ⟨?_, hres2⟩
        rw [hres1, hacc', hscan, hsplit, List.take_append_eq_append_take,
          List.map_append]
        simp
      · rw [if_neg hread] at hres
        cases hres

/-- The batched sampling loop only ever fails with the random source error. -/
theorem grcOuter_error (alphabet : List Char) (base maxValid numWanted : Nat) :
    ∀ (fuel : Nat) (src : List Nat), src.length ≤ fuel →
      ∀ (acc : List Char) (e : GenError),
      grcOuter alphabet base maxValid numWanted src acc = .error e →
        e = .RandomSourceError := by
  intro fuel
  induction fuel with
  | zero =>
    intro src hsrc acc e hres
    rw [grcOuter] at hres
    by_cases hdone : numWanted ≤ acc.length
    · rw [if_pos hdone] at hres
      cases hres
    · rw [if_neg hdone, if_neg (by omega : ¬ numWanted ≤ src.length)] at hres
      cases hres
      rfl
  | succ fuel IH =>
    intro src hsrc acc e hres
    rw [grcOuter] at hres
    by_cases hdone : numWanted ≤ acc.length
    · rw [if_pos hdone] at hres
      cases hres
    · rw [if_neg hdone] at hres
      by_cases hread : numWanted ≤ src.length
      · rw [if_pos hread] at hres
        exact IH (src.drop numWanted)
          (by simp only [List.length_drop]; omega) _ e hres
      · rw [if_neg hread] at hres
        cases hres
        rfl

/-- A too-short stream makes the very first full read fail. -/
theorem grcOuter_short (alphabet : List Char) (base maxValid numWanted : Nat)
    (src : List Nat) (hw : 0 < numWanted) (hshort : src.length < numWanted) :
    grcOuter alphabet base maxValid numWanted src [] = .error .RandomSourceError := by
  rw [grcOuter, if_neg (by simp; omega), if_neg (by omega)]

/-- Characters fetched from the alphabet at a valid index are members. -/
theorem getD_mem (alphabet : List Char) (i : Nat) (hi : i < alphabet.length) :
    alphabet.getD i ' ' ∈ alphabet := by
  rw [List.getD_eq_getElem alphabet ' ' hi]
  exact List.getElem_mem hi

/-- The duplicate scan returns none exactly when the remaining characters are
pairwise distinct and disjoint from the already-seen ones. -/
theorem validateAlphabetAux_none_iff :
    ∀ (l seen : List Char), validateAlphabetAux seen l = none ↔
      (l.Nodup ∧ ∀ x ∈ l, x ∉ seen) := by
  intro l
  induction l with
  | nil => intro seen; simp [validateAlphabetAux]
  | cons ch rest IH =>
    intro seen
    rw [validateAlphabetAux]
    by_cases h : ch ∈ seen
    · rw [if_pos h]
      simp only [reduceCtorEq, false_iff, not_and]
      intro _ hall
      exact (hall ch (by simp) h).elim
    · rw [if_neg h, IH (ch :: seen)]
      simp only [List.nodup_cons, List.mem_cons]
      constructor
      · rintro ⟨hnd, hall⟩
        refine ⟨⟨fun hmem => (hall ch hmem (Or.inl rfl)).elim, hnd⟩, ?_⟩
        rintro x (rfl | hx)
        · exact h
        · exact fun hxs => hall x hx (Or.inr hxs)
      · rintro ⟨⟨hch, hnd⟩, hall⟩
        refine ⟨hnd, fun x hx => ?_⟩
        rintro (rfl | hxs)
        · exact hch hx
        · exact hall x (Or.inr hx) hxs

/-- validateAlphabet accepts exactly the duplicate-free alphabets. -/
theorem validateAlphabet_none_iff (alphabet : List Char) :
    validateAlphabet alphabet = none ↔ alphabet.Nodup := by
  rw [validateAlphabet, validateAlphabetAux_none_iff]
  simp

/-- A valid configuration is accepted, storing the configuration verbatim. -/
theorem NewGenerator_ok_of (c : Config) (h1 : 2 ≤ c.alphabet.length)
    (h2 : 0 ≤ c.numRandomChars) (h3 : c.alphabet.Nodup) :
    NewGenerator c = .ok { config := c, base := c.alphabet.length } := by
  rw [NewGenerator, if_neg (by omega), if_neg (by omega),
    (validateAlphabet_none_iff c.alphabet).mpr h3]

/-- A generator is only ever produced from a valid configuration, and carries
it unchanged together with the cached base. -/
theorem NewGenerator_ok_inv (c : Config) (g : Generator)
    (h : NewGenerator c = .ok g) :
    g.config = c ∧ g.base = c.alphabet.length ∧
      2 ≤ c.alphabet.length ∧ 0 ≤ c.numRandomChars ∧ c.alphabet.Nodup := by
  rw [NewGenerator] at h
  by_cases h1 : c.alphabet.length < 2
  · rw [if_pos h1] at h
    cases h
  · rw [if_neg h1] at h
    by_cases h2 : c.numRandomChars < 0
    · rw [if_pos h2] at h
      cases h
    · rw [if_neg h2] at h
      cases hv : validateAlphabet c.alphabet with
      | some ch => rw [hv] at h; cases h
      | none =>
        rw [hv] at h
        cases h
        exact ⟨rfl, rfl, by omega, by omega,
          (validateAlphabet_none_iff c.alphabet).mp hv⟩

/-- Too-short alphabets are rejected with the dedicated error. -/
theorem NewGenerator_short (c : Config) (h : c.alphabet.length < 2) :
    NewGenerator c = .error .AlphabetTooShort := by
  rw [NewGenerator, if_pos h]

/-- A negative random length is rejected with the dedicated error. -/
theorem NewGenerator_negative (c : Config) (h1 : 2 ≤ c.alphabet.length)
    (h2 : c.numRandomChars < 0) :
    NewGenerator c = .error .NegativeRandomLength := by
  rw [NewGenerator, if_neg (by omega), if_pos h2]

/-- A duplicated character is rejected with the dedicated error. -/
theorem NewGenerator_dup (c : Config) (h1 : 2 ≤ c.alphabet.length)
    (h2 : 0 ≤ c.numRandomChars) (h3 : ¬ c.alphabet.Nodup) :
    ∃ ch, NewGenerator c = .error (.DuplicateAlphabetCharacter ch) := by
  cases hv : validateAlphabet c.alphabet with
  | none => exact ((h3 ((validateAlphabet_none_iff c.alphabet).mp hv)).elim)
  | some ch =>
    refine ⟨ch, ?_⟩
    rw [NewGenerator, if_neg (by omega), if_neg (by omega), hv]

/-- Each error constructor pins down its failed validation. -/
theorem NewGenerator_error_inv (c : Config) (e : ConfigError)
    (h : NewGenerator c = .error e) :
    (e = .AlphabetTooShort → c.alphabet.length < 2) ∧
    (e = .NegativeRandomLength → c.numRandomChars < 0) ∧
    (∀ ch, e = .DuplicateAlphabetCharacter ch → ¬ c.alphabet.Nodup) := by
  rw [NewGenerator] at h
  by_cases h1 : c.alphabet.length < 2
  · rw [if_pos h1] at h
    cases h
    exact ⟨fun _ => h1, by simp, by simp⟩
  · rw [if_neg h1] at h
    by_cases h2 : c.numRandomChars < 0
    · rw [if_pos h2] at h
      cases h
      exact ⟨by simp, fun _ => h2, by simp⟩
    · rw [if_neg h2] at h
      cases hv : validateAlphabet c.alphabet with
      | some ch =>
        rw [hv] at h
        cases h
        refine ⟨by simp, by simp, fun ch2 _ hnd => ?_⟩
        rw [(validateAlphabet_none_iff c.alphabet).mpr hnd] at hv
        cases hv
      | none =>
        rw [hv] at h
        cases h

/-- The encoder loop only ever fails with the buffer error. -/
theorem encodeLoop_error (alphabet : List Char) (base : Nat) :
    ∀ (fuel number : Nat) (i : Int), (i + 1).toNat + number ≤ fuel →
      ∀ (acc : List Char) (e : GenError),
        encodeLoop alphabet base number i acc = .error e →
        e = .BufferSizeEstimationFailed := by
  intro fuel
  induction fuel with
  | zero =>
    intro number i hm acc e h
    rw [encodeLoop] at h
    have h0 : number = 0 := by omega
    rw [if_pos h0] at h
    cases h
  | succ fuel IH =>
    intro number i hm acc e h
    rw [encodeLoop] at h
    by_cases h0 : number = 0
    · rw [if_pos h0] at h
      cases h
    · rw [if_neg h0] at h
      by_cases hi : i < 0
      · rw [if_pos hi] at h
        cases h
        rfl
      · rw [if_neg hi] at h
        by_cases hb : base = 0
        · rw [if_pos hb] at h
          cases h
          rfl
        · rw [if_neg hb] at h
          have hdved : number / base ≤ number := Nat.div_le_self number base
          exact IH (number / base) (i - 1) (by omega) _ e h

/-- encodeBaseN only ever fails with the buffer error. -/
theorem encodeBaseN_error (alphabet : List Char) (base number : Nat)
    (e : GenError) (h : encodeBaseN alphabet base number = .error e) :
    e = .BufferSizeEstimationFailed := by
  rw [encodeBaseN] at h
  by_cases h0 : number = 0
  · rw [if_pos h0] at h
    cases h
  · rw [if_neg h0] at h
    exact encodeLoop_error alphabet base
      (((bufSize base : Int) - 1 + 1).toNat + number) number _ (le_refl _) [] e h

/-- generateRandomChars only ever fails with the random source error. -/
theorem generateRandomChars_error (g : Generator) (numChars : Int)
    (src : List Nat) (e : GenError)
    (h : g.generateRandomChars numChars src = .error e) : e = .RandomSourceError := by
  rw [Generator.generateRandomChars] at h
  by_cases h0 : numChars = 0
  · rw [if_pos h0] at h
    cases h
  · rw [if_neg h0] at h
    exact grcOuter_error g.config.alphabet g.base g.maxValidByte numChars.toNat
      src.length src (le_refl _) [] e h

/-- Unfolding equation for Generate with the epoch test as a proposition. -/
theorem Generate_eq (g : Generator) (now0 : GoTime) (src : List Nat) :
    g.Generate now0 src =
      if now0.ns < g.config.epoch.ns then .error .EpochNotReached
      else
        match (if 0 < g.config.tickSize then g.encodeBaseN (g.ticksOf now0)
               else .ok []) with
        | .error e => .error e
        | .ok encodedTimestamp =>
          match (if 0 < g.config.numRandomChars
                 then g.generateRandomChars g.config.numRandomChars src
                 else .ok ([], src)) with
          | .error e => .error e
          | .ok (randomPart, _) => .ok (encodedTimestamp ++ randomPart) := by
  rw [Generator.Generate]
  by_cases h : now0.ns < g.config.epoch.ns
  · simp [GoTime.before, GoTime.toUTC, h]
  · simp [GoTime.before, GoTime.toUTC, h]

/-- Generation before the epoch fails with the dedicated error. -/
theorem Generate_epoch (g : Generator) (now0 : GoTime) (src : List Nat)
    (h : now0.ns < g.config.epoch.ns) :
    g.Generate now0 src = .error .EpochNotReached := by
  rw [Generate_eq, if_pos h]

/-- At or after the epoch, the epoch error can no longer arise. -/
theorem Generate_no_epoch_error (g : Generator) (now0 : GoTime) (src : List Nat)
    (h : ¬ now0.ns < g.config.epoch.ns) :
    g.Generate now0 src ≠ .error .EpochNotReached := by
  rw [Generate_eq, if_neg h]
  cases hts : (if 0 < g.config.tickSize then g.encodeBaseN (g.ticksOf now0)
               else (.ok [] : Except GenError (List Char))) with
  | error e =>
    have he : e = .BufferSizeEstimationFailed := by
      by_cases htick : 0 < g.config.tickSize
      · rw [if_pos htick] at hts
        exact encodeBaseN_error _ _ _ _ hts
      · rw [if_neg htick] at hts
        cases hts
    simp [he]
  | ok ts =>
    cases hrnd : (if 0 < g.config.numRandomChars
                  then g.generateRandomChars g.config.numRandomChars src
                  else (.ok ([], src) : Except GenError (List Char × List Nat))) with
    | error e =>
      have he : e = .RandomSourceError := by
        by_cases hnum : 0 < g.config.numRandomChars
        · rw [if_pos hnum] at hrnd
          exact generateRandomChars_error _ _ _ _ hrnd
        · rw [if_neg hnum] at hrnd
          cases hrnd
      simp [he]
    | ok pr =>
      simp

/-- Successful generation splits the identifier into the encoded time segment
and the random segment, each governed by its branch condition. -/
theorem Generate_ok_inv (g : Generator) (now0 : GoTime) (src : List Nat)
    (id : List Char) (h : g.Generate now0 src = .ok id) :
    g.config.epoch.ns ≤ now0.ns ∧
    ∃ ts rnd, id = ts ++ rnd ∧
      ((0 < g.config.tickSize ∧ g.encodeBaseN (g.ticksOf now0) = .ok ts) ∨
       (¬ 0 < g.config.tickSize ∧ ts = [])) ∧
      ((0 < g.config.numRandomChars ∧
        ∃ rest, g.generateRandomChars g.config.numRandomChars src = .ok (rnd, rest)) ∨
       (¬ 0 < g.config.numRandomChars ∧ rnd = [])) := by
  rw [Generate_eq] at h
  by_cases hep : now0.ns < g.config.epoch.ns
  · rw [if_pos hep] at h
    cases h
  · rw [if_neg hep] at h
    refine ⟨by omega, ?_⟩
    cases hts : (if 0 < g.config.tickSize then g.encodeBaseN (g.ticksOf now0)
                 else (.ok [] : Except GenError (List Char))) with
    | error e =>
      rw [hts] at h
      cases h
    | ok ts =>
      rw [hts] at h
      cases hrnd : (if 0 < g.config.numRandomChars
                    then g.generateRandomChars g.config.numRandomChars src
                    else (.ok ([], src) : Except GenError (List Char × List Nat))) with
      | error e =>
        rw [hrnd] at h
        cases h
      | ok pr =>
        rw [hrnd] at h
        cases h
        refine ⟨ts, pr.1, rfl, ?_, ?_⟩
        · by_cases htick : 0 < g.config.tickSize
          · rw [if_pos htick] at hts
            exact Or.inl ⟨htick, hts⟩
          · rw [if_neg htick] at hts
            cases hts
            exact Or.inr ⟨htick, rfl⟩
        · by_cases hnum : 0 < g.config.numRandomChars
          · rw [if_pos hnum] at hrnd
            exact Or.inl ⟨hnum, pr.2, by rw [hrnd]⟩
          · rw [if_neg hnum] at hrnd
            cases hrnd
            exact Or.inr ⟨hnum, rfl⟩

/-- The tick count is always a legal uint64 value. -/
theorem ticksOf_lt_uint64 (g : Generator) (now : GoTime) :
    g.ticksOf now < 2 ^ 64 := by
  rw [Generator.ticksOf]
  exact Nat.mod_lt _ (by norm_num)

/-- Generation depends on the reported time only through the epoch test and
the tick count. -/
theorem Generate_same_tick (g : Generator) (now1 now2 : GoTime) (src : List Nat)
    (h1 : g.config.epoch.ns ≤ now1.ns) (h2 : g.config.epoch.ns ≤ now2.ns)
    (ht : g.ticksOf now1 = g.ticksOf now2) :
    g.Generate now1 src = g.Generate now2 src := by
  rw [Generate_eq, Generate_eq,
    if_neg (show ¬ now1.ns < g.config.epoch.ns by omega),
    if_neg (show ¬ now2.ns < g.config.epoch.ns by omega), ht]

/-- A strictly smaller string is at most the other. -/
theorem goStrLeB_of_lt : ∀ (s t : List Char), goStrLtB s t = true → goStrLeB s t = true := by
  intro s
  induction s with
  | nil => intro t _; rw [goStrLeB]
  | cons a as IH =>
    intro t h
    cases t with
    | nil => rw [goStrLtB] at h; cases h
    | cons b bs =>
      rw [goStrLtB] at h
      rw [goStrLeB]
      by_cases hab : a < b
      · rw [if_pos hab]
      · rw [if_neg hab] at h ⊢
        by_cases hba : b < a
        · rw [if_pos hba] at h
          cases h
        · rw [if_neg hba] at h ⊢
          exact IH bs h

/-- A strict difference inside equal-length prefixes decides the comparison
regardless of what follows. -/
theorem goStrLtB_append (s1 s2 : List Char) :
    ∀ (p1 p2 : List Char), p1.length = p2.length → goStrLtB p1 p2 = true →
      goStrLtB (p1 ++ s1) (p2 ++ s2) = true := by
  intro p1
  induction p1 with
  | nil =>
    intro p2 hlen h
    cases p2 with
    | nil => rw [goStrLtB] at h; cases h
    | cons b bs => simp at hlen
  | cons a as IH =>
    intro p2 hlen h
    cases p2 with
    | nil => simp at hlen
    | cons b bs =>
      rw [goStrLtB] at h
      rw [List.cons_append, List.cons_append, goStrLtB]
      by_cases hab : a < b
      · rw [if_pos hab]
      · rw [if_neg hab] at h ⊢
        by_cases hba : b < a
        · rw [if_pos hba] at h
          cases h
        · rw [if_neg hba] at h ⊢
          exact IH bs (by simpa using hlen) h

/-- An equal prefix does not affect the comparison. -/
theorem goStrLtB_append_left :
    ∀ (p l1 l2 : List Char), goStrLtB l1 l2 = true →
      goStrLtB (p ++ l1) (p ++ l2) = true := by
  intro p
  induction p with
  | nil => intro l1 l2 h; simpa using h
  | cons a as IH =>
    intro l1 l2 h
    rw [List.cons_append, List.cons_append, goStrLtB,
      if_neg (lt_irrefl a), if_neg (lt_irrefl a)]
    exact IH l1 l2 h

/-- In a strictly ascending alphabet, rendering respects the digit order. -/
theorem alph_mono (alphabet : List Char)
    (hasc : List.Pairwise (fun a b => a < b) alphabet) (i j : Nat)
    (hij : i < j) (hj : j < alphabet.length) :
    alphabet.getD i ' ' < alphabet.getD j ' ' := by
  rw [List.getD_eq_getElem alphabet ' ' (lt_trans hij hj),
    List.getD_eq_getElem alphabet ' ' hj]
  exact List.pairwise_iff_getElem.mp hasc i j (lt_trans hij hj) hj hij

/-- The digit list of a number is empty exactly for zero. -/
theorem natDigits_eq_nil_iff (base n : Nat) (hb : 2 ≤ base) :
    natDigits base n = [] ↔ n = 0 := by
  constructor
  · intro h
    by_contra hn
    have := natDigits_length_pos base n hb hn
    rw [h] at this
    simp at this
  · intro h
    rw [h, natDigits_zero]

/-- Rendered digit strings of equal digit count compare strictly like the
numbers themselves, for a strictly ascending alphabet. -/
theorem natDigits_map_lt (alphabet : List Char)
    (hasc : List.Pairwise (fun a b => a < b) alphabet) (base : Nat)
    (hb : 2 ≤ base) (hlen : base ≤ alphabet.length) :
    ∀ (b a : Nat), a < b → (natDigits base a).length = (natDigits base b).length →
      goStrLtB ((natDigits base a).map (fun d => alphabet.getD d ' '))
        ((natDigits base b).map (fun d => alphabet.getD d ' ')) = true := by
  intro b
  induction b using Nat.strong_induction_on with
  | _ b IH =>
    intro a hab hdigs
    have hb0 : b ≠ 0 := by omega
    have ha0 : a ≠ 0 := by
      intro h0
      rw [h0, natDigits_zero] at hdigs
      have := natDigits_length_pos base b hb hb0
      simp at hdigs
      omega
    rw [natDigits_eq base a hb ha0] at hdigs ⊢
    rw [natDigits_eq base b hb hb0] at hdigs ⊢
    have hq : a / base ≤ b / base := Nat.div_le_div_right (le_of_lt hab)
    have hdlen : (natDigits base (a / base)).length =
        (natDigits base (b / base)).length := by
      simp at hdigs
      omega
    by_cases hqe : a / base = b / base
    · have hr : a % base < b % base := by
        have hda := Nat.div_add_mod a base
        have hdb := Nat.div_add_mod b base
        have hq2 : base * (a / base) = base * (b / base) := by rw [hqe]
        omega
      rw [hqe, List.map_append, List.map_append]
      apply goStrLtB_append_left
      have hfr : alphabet.getD (a % base) ' ' < alphabet.getD (b % base) ' ' :=
        alph_mono alphabet hasc (a % base) (b % base) hr
          (lt_of_lt_of_le (Nat.mod_lt b (by omega)) hlen)
      simp only [List.map_cons, List.map_nil]
      rw [goStrLtB, if_pos hfr]
    · have hql : a / base < b / base := by omega
      have hqb : b / base < b := Nat.div_lt_self (by omega) (by omega)
      have hpre := IH (b / base) hqb (a / base) hql hdlen
      rw [List.map_append, List.map_append]
      exact goStrLtB_append _ _ _ _ (by simp [hdlen]) hpre

/-- A gap of more than one tick strictly increases the tick count, provided
the elapsed duration stays within the int64 duration range. -/
theorem ticksOf_mono (g : Generator) (now1 now2 : GoTime)
    (ht : 0 < g.config.tickSize) (h1 : g.config.epoch.ns ≤ now1.ns)
    (hsep : g.config.tickSize < now2.ns - now1.ns)
    (hcap : now2.ns - g.config.epoch.ns ≤ maxDuration) :
    g.ticksOf now1 < g.ticksOf now2 := by
  have hM : maxDuration = 9223372036854775807 := by rw [maxDuration]; norm_num
  rw [hM] at hcap
  rw [Generator.ticksOf, Generator.ticksOf]
  simp only [GoTime.toUTC]
  rw [hM]
  have hmin1 : min (now1.ns - g.config.epoch.ns) 9223372036854775807 =
      now1.ns - g.config.epoch.ns := by omega
  have hmin2 : min (now2.ns - g.config.epoch.ns) 9223372036854775807 =
      now2.ns - g.config.epoch.ns := by omega
  rw [hmin1, hmin2]
  set tn := g.config.tickSize.toNat with htn
  set n1 := (now1.ns - g.config.epoch.ns).toNat with hn1
  set n2 := (now2.ns - g.config.epoch.ns).toNat with hn2
  have htn1 : 1 ≤ tn := by omega
  have hlt : n1 + tn < n2 := by omega
  have hn2big : n2 < 2 ^ 64 := by omega
  have hq1 : n1 / tn * tn ≤ n1 := Nat.div_mul_le_self n1 tn
  have hkey : n1 / tn + 1 ≤ n2 / tn := by
    rw [Nat.le_div_iff_mul_le (by omega : 0 < tn)]
    have hexp : (n1 / tn + 1) * tn = n1 / tn * tn + tn := by ring
    omega
  have hd1 : n1 / tn ≤ n1 := Nat.div_le_self _ _
  have hd2 : n2 / tn ≤ n2 := Nat.div_le_self _ _
  rw [Nat.mod_eq_of_lt (by omega), Nat.mod_eq_of_lt (by omega)]
  omega

/-- For the bases a single byte can index, maxValidByte agrees with the
rejection-sampling bound floor(256/base)*base - 1 of the specification. -/
theorem maxValidByte_eq (g : Generator) (h2 : 2 ≤ g.base) (h256 : g.base ≤ 256) :
    g.maxValidByte = (256 / g.base) * g.base - 1 := by
  rw [Generator.maxValidByte]
  have hcast : ((256 : Int) / (g.base : Int)) * (g.base : Int) =
      (((256 / g.base) * g.base : Nat) : Int) := by
    push_cast
    ring
  have h1 : 1 ≤ (256 / g.base) * g.base := by
    have hd : 1 ≤ 256 / g.base := (Nat.one_le_div_iff (by omega)).mpr h256
    calc 1 ≤ 1 * g.base := by omega
    _ ≤ (256 / g.base) * g.base := Nat.mul_le_mul_right g.base hd
  have hle : (256 / g.base) * g.base ≤ 256 := Nat.div_mul_le_self 256 g.base
  rw [hcast, Int.emod_eq_of_lt (by omega) (by omega)]
  omega

/-- Characters of a successful encoding are members of the alphabet. -/
theorem encodeBaseN_ok_mem (alphabet : List Char) (base n : Nat) (hb : 2 ≤ base)
    (hlen : base = alphabet.length) (hn : n < 2 ^ 64) (ts : List Char)
    (h : encodeBaseN alphabet base n = .ok ts) : ∀ ch ∈ ts, ch ∈ alphabet := by
  rw [encodeBaseN_ok alphabet base n hb hn] at h
  cases h
  intro ch hch
  by_cases h0 : n = 0
  · rw [if_pos h0] at hch
    rw [List.mem_singleton] at hch
    rw [hch]
    exact getD_mem alphabet 0 (by omega)
  · rw [if_neg h0] at hch
    obtain ⟨d, hd1, hd2⟩ := List.mem_map.mp hch
    rw [← hd2]
    exact getD_mem alphabet d
      (by rw [← hlen]; exact natDigits_lt base hb n d hd1)

/-- Characters of a successful random sample are members of the alphabet. -/
theorem generateRandomChars_ok_mem (g : Generator) (numChars : Int)
    (src : List Nat) (res : List Char) (rest : List Nat) (hbase : 0 < g.base)
    (hlen : g.base = g.config.alphabet.length)
    (h : g.generateRandomChars numChars src = .ok (res, rest)) :
    ∀ ch ∈ res, ch ∈ g.config.alphabet := by
  rw [Generator.generateRandomChars] at h
  by_cases h0 : numChars = 0
  · rw [if_pos h0] at h
    cases h
    intro ch hch
    simp at hch
  · rw [if_neg h0] at h
    obtain ⟨hres, -⟩ := grcOuter_ok g.config.alphabet g.base g.maxValidByte
      numChars.toNat src.length src (le_refl _) [] (by simp) res rest h
    rw [hres]
    intro ch hch
    simp only [List.nil_append, List.mem_map] at hch
    obtain ⟨b, hb1, hb2⟩ := hch
    rw [← hb2]
    exact getD_mem g.config.alphabet (b % g.base)
      (by rw [← hlen]; exact Nat.mod_lt b hbase)

/-- Claim C1: for every alphabet of length base at least 2 and every uint64
number, encodeBaseN returns the standard most-significant-digit-first
positional base-N representation of the number with digit d rendered as the
character at alphabet index d, zero encoding to the single character at
alphabet index 0, and the seven fixed vectors hold. -/
theorem C1_encoder_correct :
    (∀ (alphabet : List Char) (number : Nat), 2 ≤ alphabet.length →
      number < 2 ^ 64 →
      encodeBaseN alphabet alphabet.length number =
        .ok (specBaseNRepr alphabet number)) ∧
    encodeBaseN Base62Alphabet 62 0 = .ok "0".toList ∧
    encodeBaseN Base62Alphabet 62 10 = .ok "A".toList ∧
    encodeBaseN Base62Alphabet 62 62 = .ok "10".toList ∧
    encodeBaseN Base62Alphabet 62 1234567890 = .ok "1LY7VK".toList ∧
    encodeBaseN Base16LowerAlphabet 16 255 = .ok "ff".toList ∧
    encodeBaseN BinaryAlphabet 2 0 = .ok "0".toList ∧
    encodeBaseN BinaryAlphabet 2 10 = .ok "1010".toList := by
  refine ⟨?_, ?_, ?_, ?_, ?_, ?_, ?_, ?_⟩
  · intro alphabet number hlen hnum
    rw [encodeBaseN_ok alphabet alphabet.length number hlen hnum, specBaseNRepr]
    by_cases h0 : number = 0
    · rw [if_pos h0, if_pos h0]
    · rw [if_neg h0, if_neg h0,
        natDigits_eq_digits_reverse alphabet.length hlen number]
  · simp [encodeBaseN, Base62Alphabet]
  · simp [encodeBaseN, bufSize62, encodeLoop, Base62Alphabet]
  · simp [encodeBaseN, bufSize62, encodeLoop, Base62Alphabet]
  · simp [encodeBaseN, bufSize62, encodeLoop, Base62Alphabet]
  · simp [encodeBaseN, bufSize16, encodeLoop, Base16LowerAlphabet]
  · simp [encodeBaseN, BinaryAlphabet]
  · simp [encodeBaseN, bufSize2, encodeLoop, BinaryAlphabet]

/-- Witness for the universally quantified part of claim C1 at base 62 and
input 62. -/
theorem C1_witness :
    2 ≤ Base62Alphabet.length ∧ (62 : Nat) < 2 ^ 64 ∧
    encodeBaseN Base62Alphabet Base62Alphabet.length 62 =
      .ok (specBaseNRepr Base62Alphabet 62) :=
  ⟨by decide, by decide, C1_encoder_correct.1 Base62Alphabet 62 (by decide) (by decide)⟩

/-- Claim C2: for every base at least 2 and every number below 2 ^ 64 the
encoder succeeds; the internal buffer-overrun branch is unreachable, so the
buffer size estimation error is never returned. -/
theorem C2_encoder_never_fails :
    ∀ (alphabet : List Char) (base number : Nat), 2 ≤ base → number < 2 ^ 64 →
      ∃ s, encodeBaseN alphabet base number = .ok s := by
  intro alphabet base number hb hn
  exact ⟨_, encodeBaseN_ok alphabet base number hb hn⟩

/-- Witness for claim C2 at base 62 and the largest uint64 value. -/
theorem C2_witness :
    2 ≤ 62 ∧ (18446744073709551615 : Nat) < 2 ^ 64 ∧
    ∃ s, encodeBaseN Base62Alphabet 62 18446744073709551615 = .ok s :=
  ⟨by decide, by decide,
    C2_encoder_never_fails Base62Alphabet 62 18446744073709551615
      (by decide) (by decide)⟩

/-- Claim C7: NewGenerator succeeds exactly when the alphabet has at least 2
characters, the random length is nonnegative and no character repeats; on
success it only stores the configuration and caches the base; each of the
three failures is reported with its dedicated error and any error implies
its condition. -/
theorem C7_construction :
    (∀ c : Config, (∃ g, NewGenerator c = .ok g) ↔
      (2 ≤ c.alphabet.length ∧ 0 ≤ c.numRandomChars ∧ c.alphabet.Nodup)) ∧
    (∀ (c : Config) (g : Generator), NewGenerator c = .ok g →
      g.config = c ∧ g.base = c.alphabet.length) ∧
    (∀ c : Config, c.alphabet.length < 2 →
      NewGenerator c = .error .AlphabetTooShort) ∧
    (∀ c : Config, 2 ≤ c.alphabet.length → c.numRandomChars < 0 →
      NewGenerator c = .error .NegativeRandomLength) ∧
    (∀ c : Config, 2 ≤ c.alphabet.length → 0 ≤ c.numRandomChars →
      ¬ c.alphabet.Nodup →
      ∃ ch, NewGenerator c = .error (.DuplicateAlphabetCharacter ch)) ∧
    (∀ (c : Config) (e : ConfigError), NewGenerator c = .error e →
      (e = .AlphabetTooShort → c.alphabet.length < 2) ∧
      (e = .NegativeRandomLength → c.numRandomChars < 0) ∧
      (∀ ch, e = .DuplicateAlphabetCharacter ch → ¬ c.alphabet.Nodup)) := by
  refine ⟨?_, ?_, NewGenerator_short, NewGenerator_negative, NewGenerator_dup,
    NewGenerator_error_inv⟩
  · intro c
    constructor
    · rintro ⟨g, hg⟩
      obtain ⟨-, -, h1, h2, h3⟩ := NewGenerator_ok_inv c g hg
      exact ⟨h1, h2, h3⟩
    · rintro ⟨h1, h2, h3⟩
      exact ⟨_, NewGenerator_ok_of c h1 h2 h3⟩
  · intro c g hg
    obtain ⟨h1, h2, -⟩ := NewGenerator_ok_inv c g hg
    exact ⟨h1, h2⟩

/-- Witness for claim C7: a tiny valid configuration is accepted and two
invalid ones are rejected with the matching errors. -/
theorem C7_witness :
    (∃ g, NewGenerator (mkCfg BinaryAlphabet 1 0 0) = .ok g) ∧
    NewGenerator (mkCfg "a".toList 1 0 0) = .error .AlphabetTooShort ∧
    (∃ ch, NewGenerator (mkCfg "abca".toList 1 0 0) =
      .error (.DuplicateAlphabetCharacter ch)) :=
  ⟨(C7_construction.1 _).mpr ⟨by decide, by decide, by decide⟩,
    C7_construction.2.2.1 _ (by decide),
    C7_construction.2.2.2.2.1 _ (by decide) (by decide) (by decide)⟩

/-- Claim C8: Generate fails with EpochNotReached exactly when the provided
time is strictly before the epoch, for every generator, including those with
a nonpositive tick size, and a call at exactly the epoch never fails this
check. -/
theorem C8_epoch_check :
    (∀ (g : Generator) (now0 : GoTime) (src : List Nat),
      g.Generate now0 src = .error .EpochNotReached ↔
        now0.ns < g.config.epoch.ns) ∧
    (∀ (g : Generator) (now0 : GoTime) (src : List Nat),
      now0.ns = g.config.epoch.ns →
      g.Generate now0 src ≠ .error .EpochNotReached) := by
  constructor
  · intro g now0 src
    constructor
    · intro h
      by_contra hep
      exact Generate_no_epoch_error g now0 src hep h
    · exact Generate_epoch g now0 src
  · intro g now0 src heq
    apply Generate_no_epoch_error
    omega

/-- Witness for claim C8 on a tick-size-zero generator: a pre-epoch call
fails with EpochNotReached and a call exactly at the epoch does not. -/
theorem C8_witness :
    (mkGen BinaryAlphabet 0 0 100).Generate { ns := 50, loc := GoLoc.utc } [] =
      .error .EpochNotReached ∧
    (mkGen BinaryAlphabet 0 0 100).Generate { ns := 100, loc := GoLoc.utc } [] ≠
      .error .EpochNotReached :=
  ⟨(C8_epoch_check.1 _ _ _).mpr (by decide),
    C8_epoch_check.2 _ _ [] (by decide)⟩

/-- Claim C9: the random sampler returns the empty string for length zero
without consuming bytes, otherwise accepts exactly the bytes at most
maxValidByte, mapping each accepted byte b to the character at alphabet
index b mod base, discarding the rest, until exactly the requested number of
characters is produced; a short read fails with RandomSourceError and no
other error exists; maxValidByte is floor(256/base)*base - 1. -/
theorem C9_random_sampler :
    (∀ (g : Generator) (src : List Nat),
      g.generateRandomChars 0 src = .ok ([], src)) ∧
    (∀ (g : Generator) (numChars : Int) (src : List Nat) (res : List Char)
      (rest : List Nat), 0 < numChars →
      g.generateRandomChars numChars src = .ok (res, rest) →
      res = ((src.filter (fun b => decide (b ≤ g.maxValidByte))).take
        numChars.toNat).map (fun b => g.config.alphabet.getD (b % g.base) ' ') ∧
      res.length = numChars.toNat) ∧
    (∀ (g : Generator) (numChars : Int) (src : List Nat), 0 < numChars →
      src.length < numChars.toNat →
      g.generateRandomChars numChars src = .error .RandomSourceError) ∧
    (∀ (g : Generator) (numChars : Int) (src : List Nat) (e : GenError),
      g.generateRandomChars numChars src = .error e →
      e = .RandomSourceError) ∧
    (∀ g : Generator, 2 ≤ g.base → g.base ≤ 256 →
      g.maxValidByte = (256 / g.base) * g.base - 1) := by
  refine ⟨?_, ?_, ?_, generateRandomChars_error, maxValidByte_eq⟩
  · intro g src
    rw [Generator.generateRandomChars, if_pos rfl]
  · intro g numChars src res rest hpos h
    rw [Generator.generateRandomChars, if_neg (by omega)] at h
    obtain ⟨h1, h2⟩ := grcOuter_ok g.config.alphabet g.base g.maxValidByte
      numChars.toNat src.length src (le_refl _) [] (by simp) res rest h
    simp only [List.nil_append, List.length_nil, Nat.sub_zero] at h1
    exact ⟨h1, h2⟩
  · intro g numChars src hpos hshort
    rw [Generator.generateRandomChars, if_neg (by omega)]
    exact grcOuter_short g.config.alphabet g.base g.maxValidByte
      numChars.toNat src (by omega) hshort

/-- Witness for claim C9: a concrete sample over the binary alphabet
accepting both drawn bytes and a failing run on a short stream. -/
theorem C9_witness :
    (mkGen BinaryAlphabet 0 2 0).generateRandomChars 0 [7] = .ok ([], [7]) ∧
    ['1', '0'] =
      (([1, 0].filter (fun b =>
        decide (b ≤ (mkGen BinaryAlphabet 0 2 0).maxValidByte))).take
        (2 : Int).toNat).map (fun b =>
          (mkGen BinaryAlphabet 0 2 0).config.alphabet.getD
            (b % (mkGen BinaryAlphabet 0 2 0).base) ' ') ∧
    (mkGen BinaryAlphabet 0 2 0).generateRandomChars 2 [9] =
      .error .RandomSourceError := by
  refine ⟨C9_random_sampler.1 _ [7], ?_, ?_⟩
  · have hgrc : (mkGen BinaryAlphabet 0 2 0).generateRandomChars 2 [1, 0] =
        .ok (['1', '0'], []) := by
      simp [Generator.generateRandomChars, grcOuter, grcScan,
        Generator.maxValidByte, BinaryAlphabet, mkGen, mkCfg]
    exact (C9_random_sampler.2.1 _ 2 [1, 0] ['1', '0'] [] (by decide) hgrc).1
  · exact C9_random_sampler.2.2.1 _ 2 [9] (by decide) (by decide)

/-- Claim C3: with the epoch 2020-01-01T00:00:00Z, a 2 second tick, the
62-character default alphabet, 5 random characters and a random source that
always yields byte 123, generating at 0,1,2,3,4 seconds past the epoch
yields 0zzzzz, 0zzzzz, 1zzzzz, 1zzzzz, 2zzzzz; and in general, two calls at
or after the epoch that fall in the same tick produce the same identifier
for the same random stream. -/
theorem C3_deterministic_vectors :
    NewGenerator (mkCfg Base62Alphabet 2000000000 5 1577836800000000000) =
      .ok (mkGen Base62Alphabet 2000000000 5 1577836800000000000) ∧
    (mkGen Base62Alphabet 2000000000 5 1577836800000000000).Generate
      { ns := 1577836800000000000, loc := GoLoc.utc }
      (List.replicate 5 123) = .ok "0zzzzz".toList ∧
    (mkGen Base62Alphabet 2000000000 5 1577836800000000000).Generate
      { ns := 1577836801000000000, loc := GoLoc.utc }
      (List.replicate 5 123) = .ok "0zzzzz".toList ∧
    (mkGen Base62Alphabet 2000000000 5 1577836800000000000).Generate
      { ns := 1577836802000000000, loc := GoLoc.utc }
      (List.replicate 5 123) = .ok "1zzzzz".toList ∧
    (mkGen Base62Alphabet 2000000000 5 1577836800000000000).Generate
      { ns := 1577836803000000000, loc := GoLoc.utc }
      (List.replicate 5 123) = .ok "1zzzzz".toList ∧
    (mkGen Base62Alphabet 2000000000 5 1577836800000000000).Generate
      { ns := 1577836804000000000, loc := GoLoc.utc }
      (List.replicate 5 123) = .ok "2zzzzz".toList ∧
    (∀ (g : Generator) (now1 now2 : GoTime) (src : List Nat),
      g.config.epoch.ns ≤ now1.ns → g.config.epoch.ns ≤ now2.ns →
      g.ticksOf now1 = g.ticksOf now2 →
      g.Generate now1 src = g.Generate now2 src) := by
  refine ⟨by decide, ?_, ?_, ?_, ?_, ?_, Generate_same_tick⟩ <;>
    simp [Generator.Generate, mkGen, mkCfg, Generator.encodeBaseN, encodeBaseN,
      Generator.ticksOf, maxDuration, GoTime.toUTC, GoTime.before,
      Generator.generateRandomChars, Generator.maxValidByte, grcOuter, grcScan,
      bufSize62, encodeLoop, Base62Alphabet]

/-- Witness for the universally quantified part of claim C3: two calls one
second apart inside the same two-second tick agree. -/
theorem C3_witness :
    (mkGen Base62Alphabet 2000000000 5 1577836800000000000).Generate
      { ns := 1577836800000000000, loc := GoLoc.utc } (List.replicate 5 123) =
    (mkGen Base62Alphabet 2000000000 5 1577836800000000000).Generate
      { ns := 1577836801000000000, loc := GoLoc.utc } (List.replicate 5 123) :=
  C3_deterministic_vectors.2.2.2.2.2.2 _ _ _ _ (by decide) (by decide) (by decide)

/-- Claim C5: every character of every identifier returned by Generate on a
generator accepted by NewGenerator belongs to the configured alphabet. -/
theorem C5_alphabet_fidelity :
    ∀ (c : Config) (g : Generator), NewGenerator c = .ok g →
      ∀ (now0 : GoTime) (src : List Nat) (id : List Char),
        g.Generate now0 src = .ok id → ∀ ch ∈ id, ch ∈ c.alphabet := by
  intro c g hg now0 src id hid ch hch
  obtain ⟨hconf, hbase, hlen2, hnum, hnd⟩ := NewGenerator_ok_inv c g hg
  have hlen : g.base = g.config.alphabet.length := by rw [hbase, hconf]
  have hb2 : 2 ≤ g.base := by omega
  obtain ⟨hep, ts, rnd, hsplit, hts, hrnd⟩ := Generate_ok_inv g now0 src id hid
  rw [hsplit] at hch
  rw [← hconf]
  rcases List.mem_append.mp hch with hch | hch
  · rcases hts with ⟨htick, hok⟩ | ⟨-, rfl⟩
    · rw [Generator.encodeBaseN] at hok
      exact encodeBaseN_ok_mem g.config.alphabet g.base (g.ticksOf now0) hb2
        hlen (ticksOf_lt_uint64 g now0) ts hok ch hch
    · simp at hch
  · rcases hrnd with ⟨hnump, rest, hok⟩ | ⟨-, rfl⟩
    · exact generateRandomChars_ok_mem g g.config.numRandomChars src rnd rest
        (by omega) hlen hok ch hch
    · simp at hch

/-- Witness for claim C5: both characters of a concrete binary identifier
are members of the binary alphabet. -/
theorem C5_witness :
    ('1' : Char) ∈ (mkCfg BinaryAlphabet 1 0 0).alphabet ∧
    ('0' : Char) ∈ (mkCfg BinaryAlphabet 1 0 0).alphabet := by
  have hid : (mkGen BinaryAlphabet 1 0 0).Generate
      { ns := 2, loc := GoLoc.utc } [] = .ok "10".toList := by
    simp [Generator.Generate, mkGen, mkCfg, Generator.encodeBaseN, encodeBaseN,
      Generator.ticksOf, maxDuration, GoTime.toUTC, GoTime.before,
      bufSize2, encodeLoop, BinaryAlphabet]
  exact ⟨C5_alphabet_fidelity _ _ (by decide) _ _ _ hid '1' (by decide),
    C5_alphabet_fidelity _ _ (by decide) _ _ _ hid '0' (by decide)⟩

/-- With no time segment and no random segment, generation at or after the
epoch returns the empty identifier. -/
theorem Generate_no_segments (g : Generator) (now0 : GoTime) (src : List Nat)
    (hep : g.config.epoch.ns ≤ now0.ns) (ht : g.config.tickSize ≤ 0)
    (hn : g.config.numRandomChars = 0) : g.Generate now0 src = .ok [] := by
  rw [Generate_eq, if_neg (by omega),
    if_neg (show ¬ 0 < g.config.tickSize by omega),
    if_neg (show ¬ 0 < g.config.numRandomChars by omega)]
  rfl

/-- Claim C10: a valid alphabet with a nonpositive tick size and zero random
characters is accepted, and every call at or after the epoch then succeeds
returning the empty identifier. -/
theorem C10_empty_identifier :
    ∀ c : Config, 2 ≤ c.alphabet.length → c.alphabet.Nodup →
      c.tickSize ≤ 0 → c.numRandomChars = 0 →
      ∃ g, NewGenerator c = .ok g ∧
        ∀ (now0 : GoTime) (src : List Nat), c.epoch.ns ≤ now0.ns →
          g.Generate now0 src = .ok [] := by
  intro c h1 h3 ht hn
  refine ⟨_, NewGenerator_ok_of c h1 (by omega) h3, ?_⟩
  intro now0 src hep
  exact Generate_no_segments _ now0 src hep ht hn

/-- Witness for claim C10 on the binary alphabet with a zero tick size. -/
theorem C10_witness :
    ∃ g, NewGenerator (mkCfg BinaryAlphabet 0 0 0) = .ok g ∧
      g.Generate { ns := 5, loc := GoLoc.utc } [] = .ok [] := by
  obtain ⟨g, hg, hgen⟩ := C10_empty_identifier (mkCfg BinaryAlphabet 0 0 0)
    (by decide) (by decide) (by decide) (by decide)
  exact ⟨g, hg, hgen { ns := 5, loc := GoLoc.utc } [] (by decide)⟩

/-- Counterexample to claim C4 as stated: with the default base62 alphabet,
a one second tick, no random characters and times 61s and 63s past the epoch
(separated by more than one tick), the identifiers are the strings z and 11,
which are in strictly decreasing lexicographic order. -/
theorem C4_counterexample :
    NewGenerator (mkCfg Base62Alphabet 1000000000 0 0) =
      .ok (mkGen Base62Alphabet 1000000000 0 0) ∧
    (0 : Int) < (mkCfg Base62Alphabet 1000000000 0 0).tickSize ∧
    (mkCfg Base62Alphabet 1000000000 0 0).epoch.ns ≤ 61000000000 ∧
    (mkCfg Base62Alphabet 1000000000 0 0).tickSize <
      63000000000 - 61000000000 ∧
    (mkGen Base62Alphabet 1000000000 0 0).Generate
      { ns := 61000000000, loc := GoLoc.utc } [] = .ok "z".toList ∧
    (mkGen Base62Alphabet 1000000000 0 0).Generate
      { ns := 63000000000, loc := GoLoc.utc } [] = .ok "11".toList ∧
    goStrLeB "z".toList "11".toList = false := by
  refine ⟨by decide, by decide, by decide, by decide, ?_, ?_, by decide⟩ <;>
    simp [Generator.Generate, mkGen, mkCfg, Generator.encodeBaseN, encodeBaseN,
      Generator.ticksOf, maxDuration, GoTime.toUTC, GoTime.before,
      bufSize62, encodeLoop, Base62Alphabet]

/-- Claim C4 amended: the identifiers are in nondecreasing (indeed strictly
increasing) lexicographic order under the claimed conditions provided
additionally that the alphabet characters are in strictly increasing order,
the elapsed duration stays within the int64 duration range, and the two tick
counts have the same number of base-N digits; the counterexample shows the
digit-count condition cannot be dropped even for the default alphabet. -/
theorem C4_amended_sortability :
    ∀ (c : Config) (g : Generator), NewGenerator c = .ok g →
      0 < c.tickSize →
      List.Pairwise (fun a b => a < b) c.alphabet →
      ∀ (now1 now2 : GoTime) (src1 src2 : List Nat) (id1 id2 : List Char),
        c.epoch.ns ≤ now1.ns →
        c.tickSize < now2.ns - now1.ns →
        now2.ns - c.epoch.ns ≤ maxDuration →
        (natDigits g.base (g.ticksOf now1)).length =
          (natDigits g.base (g.ticksOf now2)).length →
        g.Generate now1 src1 = .ok id1 →
        g.Generate now2 src2 = .ok id2 →
        goStrLeB id1 id2 = true := by
  intro c g hg htick hasc now1 now2 src1 src2 id1 id2 hep1 hsep hcap hdig h1 h2
  obtain ⟨hconf, hbase, hlen2, -, -⟩ := NewGenerator_ok_inv c g hg
  have hb2 : 2 ≤ g.base := by omega
  have htick' : 0 < g.config.tickSize := by rw [hconf]; exact htick
  have hep1' : g.config.epoch.ns ≤ now1.ns := by rw [hconf]; exact hep1
  have hsep' : g.config.tickSize < now2.ns - now1.ns := by rw [hconf]; exact hsep
  have hcap' : now2.ns - g.config.epoch.ns ≤ maxDuration := by
    rw [hconf]; exact hcap
  have htlt : g.ticksOf now1 < g.ticksOf now2 :=
    ticksOf_mono g now1 now2 htick' hep1' hsep' hcap'
  have ht2 : g.ticksOf now2 ≠ 0 := by omega
  have ht1 : g.ticksOf now1 ≠ 0 := by
    intro h0
    rw [h0, natDigits_zero] at hdig
    have := natDigits_length_pos g.base (g.ticksOf now2) hb2 ht2
    simp at hdig
    omega
  obtain ⟨-, ts1, rnd1, hid1, hts1, -⟩ := Generate_ok_inv g now1 src1 id1 h1
  obtain ⟨-, ts2, rnd2, hid2, hts2, -⟩ := Generate_ok_inv g now2 src2 id2 h2
  rcases hts1 with ⟨-, hok1⟩ | ⟨hcontra, -⟩
  · rcases hts2 with ⟨-, hok2⟩ | ⟨hcontra, -⟩
    · rw [Generator.encodeBaseN,
        encodeBaseN_ok g.config.alphabet g.base _ hb2 (ticksOf_lt_uint64 g now1),
        if_neg ht1] at hok1
      cases hok1
      rw [Generator.encodeBaseN,
        encodeBaseN_ok g.config.alphabet g.base _ hb2 (ticksOf_lt_uint64 g now2),
        if_neg ht2] at hok2
      cases hok2
      rw [hid1, hid2]
      apply goStrLeB_of_lt
      apply goStrLtB_append rnd1 rnd2 _ _ (by simp [hdig])
      exact natDigits_map_lt g.config.alphabet (by rw [hconf]; exact hasc)
        g.base hb2 (by rw [hconf]; exact hbase.le) (g.ticksOf now2)
        (g.ticksOf now1) htlt hdig
    · exact absurd htick' hcontra
  · exact absurd htick' hcontra

/-- Witness for the amended claim C4: ticks 62 and 65 both have two base62
digits and their identifiers 10 and 13 are in increasing order. -/
theorem C4_witness :
    (mkGen Base62Alphabet 1000000000 0 0).Generate
      { ns := 62000000000, loc := GoLoc.utc } [] = .ok "10".toList ∧
    (mkGen Base62Alphabet 1000000000 0 0).Generate
      { ns := 65000000000, loc := GoLoc.utc } [] = .ok "13".toList ∧
    goStrLeB "10".toList "13".toList = true := by
  have ha : (mkGen Base62Alphabet 1000000000 0 0).Generate
      { ns := 62000000000, loc := GoLoc.utc } [] = .ok "10".toList := by
    simp [Generator.Generate, mkGen, mkCfg, Generator.encodeBaseN, encodeBaseN,
      Generator.ticksOf, maxDuration, GoTime.toUTC, GoTime.before,
      bufSize62, encodeLoop, Base62Alphabet]
  have hb : (mkGen Base62Alphabet 1000000000 0 0).Generate
      { ns := 65000000000, loc := GoLoc.utc } [] = .ok "13".toList := by
    simp [Generator.Generate, mkGen, mkCfg, Generator.encodeBaseN, encodeBaseN,
      Generator.ticksOf, maxDuration, GoTime.toUTC, GoTime.before,
      bufSize62, encodeLoop, Base62Alphabet]
  have hdig : (natDigits (mkGen Base62Alphabet 1000000000 0 0).base
      ((mkGen Base62Alphabet 1000000000 0 0).ticksOf
        { ns := 62000000000, loc := GoLoc.utc })).length =
      (natDigits (mkGen Base62Alphabet 1000000000 0 0).base
        ((mkGen Base62Alphabet 1000000000 0 0).ticksOf
          { ns := 65000000000, loc := GoLoc.utc })).length := by
    have h62 : (mkGen Base62Alphabet 1000000000 0 0).ticksOf
        { ns := 62000000000, loc := GoLoc.utc } = 62 := by
      simp [Generator.ticksOf, mkGen, mkCfg, maxDuration, GoTime.toUTC]
    have h65 : (mkGen Base62Alphabet 1000000000 0 0).ticksOf
        { ns := 65000000000, loc := GoLoc.utc } = 65 := by
      simp [Generator.ticksOf, mkGen, mkCfg, maxDuration, GoTime.toUTC]
    rw [h62, h65]
    simp [natDigits, mkGen, Base62Alphabet]
  exact ⟨ha, hb, C4_amended_sortability (mkCfg Base62Alphabet 1000000000 0 0)
    (mkGen Base62Alphabet 1000000000 0 0) (by decide) (by decide) (by decide)
    _ _ [] [] _ _ (by decide) (by decide) (by decide) hdig ha hb⟩

/-- Counterexample to claim C6 as stated: a configuration whose epoch has no
location information is accepted, and the stored epoch still has no location
information after construction, i.e. it was not rewritten to UTC. -/
theorem C6_counterexample :
    NewGenerator c6cfg = .ok c6gen ∧
    c6cfg.epoch.loc = GoLoc.unset ∧
    c6gen.config.epoch.loc = GoLoc.unset ∧
    c6gen.config.epoch.loc ≠ GoLoc.utc := by
  decide

/-- Claim C6 amended: NewGenerator stores the epoch unchanged, performing no
normalization; instead Generate converts the provided time to UTC, and since
comparison and subtraction of times depend only on the instant, the produced
identifier is independent of the location markers of both the provided time
and the stored epoch, which is the timezone safety the specification is
after. -/
theorem C6_amended_timezone :
    ∀ (c : Config) (g : Generator), NewGenerator c = .ok g →
      g.config.epoch = c.epoch ∧
      (∀ (now0 : GoTime) (l : GoLoc) (src : List Nat),
        g.Generate { ns := now0.ns, loc := l } src = g.Generate now0 src) ∧
      (∀ (l : GoLoc) (now0 : GoTime) (src : List Nat),
        (withEpochLoc g l).Generate now0 src = g.Generate now0 src) := by
  intro c g hg
  obtain ⟨hconf, -, -⟩ := NewGenerator_ok_inv c g hg
  refine ⟨by rw [hconf], ?_, ?_⟩
  · intro now0 l src
    rfl
  · intro l now0 src
    rfl

/-- Witness for the amended claim C6 on the concrete unset-location
configuration: the stored epoch is untouched and a local-time call agrees
with the unset-location call at the same instant. -/
theorem C6_witness :
    c6gen.config.epoch = c6cfg.epoch ∧
    c6gen.Generate { ns := 5, loc := GoLoc.localtz } [] =
      c6gen.Generate { ns := 5, loc := GoLoc.unset } [] := by
  have h := C6_amended_timezone c6cfg c6gen (by decide)
  exact ⟨h.1, h.2.1 { ns := 5, loc := GoLoc.unset } GoLoc.localtz []⟩

end Stid
